import Mathlib

/-!
# Verification of `lscsi.c` (SCSI pass-through session layer)

A shallow embedding of the C sources of the `matshita-fix` repository
(`src/lscsi.c`) together with theorems checking the design document against it.

Modelling conventions:

* A C `int` is a 32-bit two's-complement integer; it is embedded as `Int`.
  Where overflow or an `unsigned` conversion matters the reduction modulo
  `2 ^ 32` is written out explicitly (`wrap32`, `toU32`).
* The bitwise operators `|` and `&` of C are embedded by `cOr` and `cAnd`,
  which operate on the 32-bit two's-complement bit pattern of their operands.
  They are built from the fuel-indexed functions `orBits`/`andBits`, which
  recurse structurally on the fuel so that the kernel can evaluate them on
  concrete inputs.
* Byte buffers (the auto-sense buffer) are embedded as `List Nat`, each
  element being the unsigned value of one memory byte.  Reading `chars[i]`
  through a (possibly signed) `char` and masking with `& 0x0F`, `& 0x7F` or
  `& 0xFF`, as the C code does, yields exactly the low bits of that byte;
  those masks are embedded with `natAnd`.
* `exit(...)` (the fatal error path of `exits`/`exite`) is embedded by an
  `Option` result: `none` means the process terminated fatally.
* The fields that `ioctl(SG_IO)` writes back into the request record are
  supplied as an explicit `SgOut` record: the embedding of `sp_speak` is a
  pure function of the state before the call and of the values the kernel
  wrote back.
-/

namespace Lscsi

/-! ## 32-bit machine integers -/

/-- The two's-complement bit pattern (as a natural number below `2 ^ 32`)
of the 32-bit machine integer holding the value `x`. -/
def toU32 (x : Int) : Nat := (x % 2 ^ 32).toNat

/-- The signed value of a 32-bit two's-complement bit pattern. -/
def ofU32 (p : Nat) : Int := if p < 2 ^ 31 then (p : Int) else (p : Int) - 2 ^ 32

/-- Reduce an unbounded integer to the value of the 32-bit machine integer
with the same residue modulo `2 ^ 32` (two's-complement wrap-around). -/
def wrap32 (x : Int) : Int := (x + 2 ^ 31) % 2 ^ 32 - 2 ^ 31

/-- Bitwise or of the low `k` bits of two natural numbers.  Structural
recursion on the fuel `k`, so concrete instances evaluate in the kernel. -/
def orBits : Nat → Nat → Nat → Nat
  | 0, _, _ => 0
  | k + 1, a, b => max (a % 2) (b % 2) + 2 * orBits k (a / 2) (b / 2)

/-- Bitwise and of the low `k` bits of two natural numbers. -/
def andBits : Nat → Nat → Nat → Nat
  | 0, _, _ => 0
  | k + 1, a, b => min (a % 2) (b % 2) + 2 * andBits k (a / 2) (b / 2)

/-- The C operator `|` on 32-bit machine integers. -/
def cOr (a b : Int) : Int := ofU32 (orBits 32 (toU32 a) (toU32 b))

/-- The C operator `&` on 32-bit machine integers. -/
def cAnd (a b : Int) : Int := ofU32 (andBits 32 (toU32 a) (toU32 b))

/-- The C operator `&` on unsigned values (used for byte masks). -/
def natAnd (a b : Nat) : Nat := andBits 32 a b

/-- The C operator `/` on `int`: division truncating towards zero (C99). -/
def cdiv (a b : Int) : Int := Int.tdiv a b

/-! ## External constants

`SG_*` values come from the Linux kernel header `<scsi/sg.h>`, a fixed
external interface of the program. -/

def SG_DXFER_NONE : Int := -1

def SG_DXFER_TO_DEV : Int := -2

def SG_DXFER_FROM_DEV : Int := -3

def SG_INFO_OK_MASK : Nat := 0x1

def SG_INFO_OK : Nat := 0x0

/-! ## The exit-int bit layout

Modelled from the spec: the `SP_*` constants are declared in `spscsi.h`,
which is not among the repository sources; the design document (section 6)
fixes only their contract: one reserved bit pattern signalling
"pass-through failed" that is distinct from every non-negative residue
value (realized below as the sign bit of a 32-bit `int`), independent
single-bit flags, and three disjoint multi-bit fields for Sense Key, ASC
and ASCQ, each with a fixed least-significant-bit position.  The concrete
positions below realize that contract. -/

def SP_THRU : Int := -(2 ^ 31)

def SP_ASCQ : Int := 0xFF

def SP_ASC : Int := 0xFF00

def SP_SK : Int := 0xF0000

def SP_SENSE : Int := 0x100000

def SP_DEFERRED : Int := 0x200000

def SP_RESIDUE : Int := 0x400000

def SP_DATA_THRU : Int := 0x800000

def SP_SENSE_THRU : Int := 0x1000000

/-! ## The session record

`struct sp` owns an `sg_io_hdr_t` request record (field types as in
`<scsi/sg.h>`: `int` fields as `Int`, `unsigned char`/`unsigned short`/
`unsigned int` fields as `Nat`, pointers as abstract addresses of type
`Int`), the device handle `fd`, and an in-object default sense buffer whose
address is the abstract `senseAddr`. -/

structure SgIoHdr where
  interface_id : Int := 0
  dxfer_direction : Int := 0
  cmd_len : Nat := 0
  mx_sb_len : Nat := 0
  iovec_count : Nat := 0
  dxfer_len : Int := 0
  dxferp : Int := 0
  cmdp : Int := 0
  sbp : Int := 0
  timeout : Nat := 0
  flags : Nat := 0
  pack_id : Int := 0
  usr_ptr : Int := 0
  status : Nat := 0
  masked_status : Nat := 0
  msg_status : Nat := 0
  sb_len_wr : Nat := 0
  host_status : Nat := 0
  driver_status : Nat := 0
  resid : Int := 0
  duration : Nat := 0
  info : Nat := 0
deriving DecidableEq, Repr

structure Sp where
  sih : SgIoHdr
  fd : Int
  senseAddr : Int
deriving DecidableEq, Repr

/-- The values `ioctl(SG_IO)` reports back: its return value, the written
output fields of the request record as the code reads them into `int`
locals, and the bytes the device stored in the sense buffer. -/
structure SgOut where
  ret : Int
  resid : Int
  sb_len_wr : Int
  info : Nat
  sense : List Nat
deriving DecidableEq, Repr

def USUAL_SENSE : Nat := 0x12

def USUAL_SECONDS : Int := 28 * 60 * 60

/-! ## Request configuration (`sp_cdb`, `sp_data`, `sp_sense`, `sp_late`) -/

/-- `sp_cdb`: store the CDB view.  `(unsigned char) max` is `max` reduced
modulo `256`; if that changes the value the C code calls `exits` (embedded
as `none`).  Returns the stored pointer. -/
def sp_cdb (sp : Sp) (cdb : Int) (max : Int) : Option (Sp × Int) :=
  let uch : Nat := (max % 256).toNat
  if (uch : Int) ≠ max then none
  else some ({ sp with sih := { sp.sih with cmd_len := uch, cmdp := cdb } },
             cdb)

/-- `sp_data`: store the data view (no validation), return the stored
pointer. -/
def sp_data (sp : Sp) (data : Int) (max : Int) : Sp × Int :=
  ({ sp with sih := { sp.sih with dxfer_len := max, dxferp := data } }, data)

/-- `sp_sense`: store the sense-buffer view, with the same 8-bit check as
`sp_cdb`.  Returns the stored pointer. -/
def sp_sense (sp : Sp) (sense : Int) (max : Int) : Option (Sp × Int) :=
  let uch : Nat := (max % 256).toNat
  if (uch : Int) ≠ max then none
  else some ({ sp with sih := { sp.sih with mx_sb_len := uch, sbp := sense } },
             sense)

/-- `sp_late`: convert `(s, ns)` to milliseconds, rounding the nanosecond
part up, with the overflow guard `(ms / 1000) != s`; store the result in
the `unsigned int` field `timeout` and return the represented nanosecond
remainder.  Intermediate `int` arithmetic wraps at 32 bits (`wrap32`); the
store into `timeout` is the C conversion of `int` to `unsigned int`. -/
def sp_late (sp : Sp) (s ns : Int) : Option (Sp × Int) :=
  let ms : Int := wrap32 (wrap32 (s * 1000) + cdiv (cdiv (wrap32 (ns + 999999)) 1000) 1000)
  if cdiv ms 1000 ≠ s then none
  else
    let t : Nat := (ms % 2 ^ 32).toNat
    some ({ sp with sih := { sp.sih with timeout := t } },
          ((t % 1000) * 1000 * 1000 : Nat))

/-- The request record that `sp_zero` leaves behind: all fields zero
except the interface tag, the null direction, the default sense view of
`USUAL_SENSE` bytes at the given in-object buffer address, and the default
timeout of `USUAL_SECONDS` expressed in milliseconds. -/
def zeroedSih (senseAddr : Int) : SgIoHdr :=
  { interface_id := 83
    dxfer_direction := SG_DXFER_NONE
    mx_sb_len := USUAL_SENSE
    sbp := senseAddr
    timeout := 100800000 }

/-! ## Session reset (`sp_zero`) -/

/-- `sp_zero`: zero the whole request record (`memset`), set the interface
tag (ASCII code of the letter S) and the null transfer direction, then
install the default sense buffer (the in-object array, `USUAL_SENSE` bytes)
and the default timeout (`USUAL_SECONDS`, zero nanoseconds). -/
def sp_zero (sp : Sp) : Option Sp :=
  let sp1 : Sp :=
    { sp with sih := { interface_id := 83, dxfer_direction := SG_DXFER_NONE } }
  match sp_sense sp1 sp.senseAddr (USUAL_SENSE : Int) with
  | none => none
  | some (sp2, _) =>
    match sp_late sp2 USUAL_SECONDS 0 with
    | none => none
    | some (sp3, _) => some sp3

/-! ## Sense decoding (`int_from_sense`) -/

/-- `lsb`: zero all but the least significant set bit of a mask. -/
def lsb (mask : Int) : Int := cAnd mask (-mask)

/-- `int_from_sense`: construct an exit int from the bits of auto sense.
Straight translation of the C function; the local variable `length` is
reassigned in the C code when the additional-length byte shortens it, so
the embedding threads that reassignment through `length1`. -/
def int_from_sense (chars : List Nat) (length : Int) : Int :=
  if 2 < length then
    let sk : Nat := natAnd (chars.getD 2 0) 0x0F
    let response_code : Nat := natAnd (chars.getD 0 0) 0x7F
    if response_code = 0x70 ∨ response_code = 0x71 then
      let e1 : Int := cOr SP_THRU SP_SENSE
      let e2 : Int := if response_code ≠ 0x70 then cOr e1 SP_DEFERRED else e1
      let e3 : Int := cOr e2 ((sk : Int) * lsb SP_SK)
      let length1 : Int :=
        if 7 < length then
          let al : Nat := natAnd (chars.getD 7 0) 0xFF
          if al ≠ 0 then
            let mx : Int := 7 + 1 + (al : Int)
            if mx < length then mx else length
          else length
        else length
      let e4 : Int :=
        if 0xC < length1 then cOr e3 ((natAnd (chars.getD 0xC 0) 0xFF : Int) * lsb SP_ASC)
        else e3
      let e5 : Int :=
        if 0xD < length1 then cOr e4 ((natAnd (chars.getD 0xD 0) 0xFF : Int) * lsb SP_ASCQ)
        else e4
      e5
    else SP_THRU
  else SP_THRU

/-- The effective valid sense length of `int_from_sense`: the value of its
local variable `length` at the point where the ASC and ASCQ bytes are read,
after the additional-length clamp. -/
def senseLen (chars : List Nat) (length : Int) : Int :=
  if 7 < length then
    let al : Nat := natAnd (chars.getD 7 0) 0xFF
    if al ≠ 0 then
      let mx : Int := 7 + 1 + (al : Int)
      if mx < length then mx else length
    else length
  else length

/-- Observer for the packed exit int: the bits `lo ≤ i < lo + width` of the
32-bit two's-complement pattern of `x`, as a natural number. -/
def bitField (x : Int) (lo width : Nat) : Nat := toU32 x / 2 ^ lo % 2 ^ width

/-- `int_from_sense` with every buffer read made total by `Option`-valued
indexing: `none` means the C code would have read past the end of the
buffer.  The reads happen exactly where the C code performs them. -/
def int_from_senseO (chars : List Nat) (length : Int) : Option Int :=
  if 2 < length then
    (chars[2]?).bind fun c2 =>
    (chars[0]?).bind fun c0 =>
    let sk : Nat := natAnd c2 0x0F
    let response_code : Nat := natAnd c0 0x7F
    if response_code = 0x70 ∨ response_code = 0x71 then
      let e1 : Int := cOr SP_THRU SP_SENSE
      let e2 : Int := if response_code ≠ 0x70 then cOr e1 SP_DEFERRED else e1
      let e3 : Int := cOr e2 ((sk : Int) * lsb SP_SK)
      (if 7 < length then
         (chars[7]?).map fun c7 =>
           let al : Nat := natAnd c7 0xFF
           if al ≠ 0 then
             let mx : Int := 7 + 1 + (al : Int)
             if mx < length then mx else length
           else length
       else some length).bind fun length1 =>
      (if 0xC < length1 then
         (chars[0xC]?).map fun cc => cOr e3 ((natAnd cc 0xFF : Int) * lsb SP_ASC)
       else some e3).bind fun e4 =>
      (if 0xD < length1 then
         (chars[0xD]?).map fun cd => cOr e4 ((natAnd cd 0xFF : Int) * lsb SP_ASCQ)
       else some e4).bind fun e5 =>
      some e5
    else some SP_THRU
  else some SP_THRU

/-! ## Transfer (`sp_speak`, `sp_read`, `sp_write`) -/

/-- `sp_speak`: one pass-through call.  Compress the ioctl return value,
the residue, the completion-status info word and the auto sense into one
exit int. -/
def sp_speak (sp : Sp) (o : SgOut) : Int :=
  let max : Int := sp.sih.dxfer_len
  let sense_chars : List Nat := o.sense
  let sense_max : Int := (sp.sih.mx_sb_len : Int)
  let i : Int := o.ret
  let residue : Int := o.resid
  let sense_enough : Int := o.sb_len_wr
  if i < 0 then SP_THRU
  else if residue < 0 ∨ max < residue then cOr SP_THRU SP_DATA_THRU
  else if natAnd o.info SG_INFO_OK_MASK ≠ SG_INFO_OK then
    if sense_enough < 0 ∨ sense_max < sense_enough then cOr SP_THRU SP_SENSE_THRU
    else
      let e : Int := cOr SP_THRU (int_from_sense sense_chars sense_enough)
      if residue ≠ 0 then cOr e SP_RESIDUE else e
  else residue

/-- `sp_read`: install the data view, set the from-device direction, and
pass through. -/
def sp_read (sp : Sp) (to_ max : Int) (o : SgOut) : Sp × Int :=
  let sp1 : Sp := (sp_data sp to_ max).1
  let sp2 : Sp := { sp1 with sih := { sp1.sih with dxfer_direction := SG_DXFER_FROM_DEV } }
  (sp2, sp_speak sp2 o)

/-- `sp_write`: install the data view, set the to-device direction, and
pass through. -/
def sp_write (sp : Sp) (from_ max : Int) (o : SgOut) : Sp × Int :=
  let sp1 : Sp := (sp_data sp from_ max).1
  let sp2 : Sp := { sp1 with sih := { sp1.sih with dxfer_direction := SG_DXFER_TO_DEV } }
  (sp2, sp_speak sp2 o)

/-! ## Concrete data used by the witness theorems -/

/-- The 14-byte example sense buffer of the design document: current sense,
Sense Key 5, additional length `0x0A`, ASC `0x21`, ASCQ `0x22`. -/
def demoSense : List Nat := [0x70, 0x00, 0x05, 0, 0, 0, 0, 0x0A, 0, 0, 0, 0, 0x21, 0x22]

/-- A session with an open handle and a zeroed request record. -/
def demoSp : Sp := { sih := {}, fd := 3, senseAddr := 4096 }

/-! ## Arithmetic facts about the bit-level helpers -/

theorem orBits_succ (k a b : Nat) :
    orBits (k + 1) a b = max (a % 2) (b % 2) + 2 * orBits k (a / 2) (b / 2) := rfl

theorem andBits_succ (k a b : Nat) :
    andBits (k + 1) a b = min (a % 2) (b % 2) + 2 * andBits k (a / 2) (b / 2) := rfl

theorem orBits_zero_right : ∀ (k a : Nat), a < 2 ^ k → orBits k a 0 = a
  | 0, a, h => by norm_num at h; simp [orBits, h]
  | k + 1, a, h => by
    have ih := orBits_zero_right k (a / 2) (by rw [pow_succ] at h; omega)
    rw [orBits_succ, ih]
    omega

theorem orBits_hi_lo : ∀ (k j hi lo : Nat), j ≤ k → lo < 2 ^ j → hi * 2 ^ j < 2 ^ k →
    orBits k (hi * 2 ^ j) lo = hi * 2 ^ j + lo
  | k, 0, hi, lo, _, hlo, hhi => by
    norm_num at hlo
    rw [hlo]
    simpa using orBits_zero_right k (hi * 2 ^ 0) hhi
  | 0, j + 1, _, _, hj, _, _ => by omega
  | k + 1, j + 1, hi, lo, hj, hlo, hhi => by
    have hp : (2 : Nat) ^ (j + 1) = 2 ^ j * 2 := pow_succ 2 j
    have e1 : hi * 2 ^ (j + 1) = 2 * (hi * 2 ^ j) := by rw [hp]; ring
    rw [e1, orBits_succ]
    have h2 : 2 * (hi * 2 ^ j) % 2 = 0 := by omega
    have h3 : 2 * (hi * 2 ^ j) / 2 = hi * 2 ^ j := by omega
    rw [h2, h3]
    have ih := orBits_hi_lo k j hi (lo / 2) (by omega)
      (by rw [hp] at hlo; omega)
      (by rw [e1, pow_succ] at hhi; omega)
    rw [ih]
    omega

theorem andBits_zero_right : ∀ (k a : Nat), andBits k a 0 = 0
  | 0, _ => rfl
  | k + 1, a => by rw [andBits_succ, andBits_zero_right k (a / 2)]; omega

theorem andBits_zero_left : ∀ (k b : Nat), andBits k 0 b = 0
  | 0, _ => rfl
  | k + 1, b => by rw [andBits_succ, andBits_zero_left k (b / 2)]; omega

theorem andBits_lo_hi : ∀ (k j hi lo : Nat), lo < 2 ^ j → andBits k lo (hi * 2 ^ j) = 0
  | 0, _, _, _, _ => rfl
  | k + 1, 0, hi, lo, hlo => by
    norm_num at hlo
    rw [hlo, andBits_zero_left]
  | k + 1, j + 1, hi, lo, hlo => by
    have hp : (2 : Nat) ^ (j + 1) = 2 ^ j * 2 := pow_succ 2 j
    have e1 : hi * 2 ^ (j + 1) = 2 * (hi * 2 ^ j) := by rw [hp]; ring
    rw [e1, andBits_succ]
    have h2 : 2 * (hi * 2 ^ j) % 2 = 0 := by omega
    have h3 : 2 * (hi * 2 ^ j) / 2 = hi * 2 ^ j := by omega
    rw [h2, h3, andBits_lo_hi k j hi (lo / 2) (by rw [hp] at hlo; omega)]
    omega

theorem andBits_ones : ∀ (k j a : Nat), j ≤ k → andBits k a (2 ^ j - 1) = a % 2 ^ j
  | k, 0, a, _ => by have h := andBits_zero_right k a; norm_num; omega
  | 0, j + 1, _, hj => by omega
  | k + 1, j + 1, a, hj => by
    rw [andBits_succ]
    have hp : (2 : Nat) ^ (j + 1) = 2 ^ j * 2 := pow_succ 2 j
    have hpos : 0 < (2 : Nat) ^ j := Nat.two_pow_pos j
    have h1 : (2 ^ (j + 1) - 1) % 2 = 1 := by rw [hp]; omega
    have h2 : (2 ^ (j + 1) - 1) / 2 = 2 ^ j - 1 := by rw [hp]; omega
    rw [h1, h2, andBits_ones k j (a / 2) (by omega)]
    rw [hp, Nat.mul_comm (2 ^ j) 2, Nat.mod_mul]
    omega

theorem natAnd_15 (a : Nat) : natAnd a 0x0F = a % 16 := andBits_ones 32 4 a (by norm_num)

theorem natAnd_127 (a : Nat) : natAnd a 0x7F = a % 128 := andBits_ones 32 7 a (by norm_num)

theorem natAnd_255 (a : Nat) : natAnd a 0xFF = a % 256 := andBits_ones 32 8 a (by norm_num)

theorem natAnd_1 (a : Nat) : natAnd a 0x1 = a % 2 := andBits_ones 32 1 a (by norm_num)

/-- Joining a negative 32-bit value whose low `j` pattern bits are clear
with a non-negative value below `2 ^ j` is plain addition. -/
theorem cOr_add (B v : Int) (j : Nat) (hj : j ≤ 32)
    (hB0 : -(2 ^ 31) ≤ B) (hB1 : B < 0) (hv0 : 0 ≤ v) (hvj : v < 2 ^ j)
    (h : ∃ hi : Nat, (B + 2 ^ 32).toNat = hi * 2 ^ j) :
    cOr B v = B + v := by
  obtain ⟨hi, hP⟩ := h
  have h2j : (2 : Nat) ^ j ≤ 2 ^ 32 := Nat.pow_le_pow_right (by norm_num) hj
  have hcast : (((2 : Nat) ^ j : Nat) : Int) = (2 : Int) ^ j := by push_cast; ring
  have hBpat : toU32 B = hi * 2 ^ j := by unfold toU32; omega
  have hv32 : v < 2 ^ 32 :=
    lt_of_lt_of_le hvj (pow_le_pow_right₀ (by norm_num) hj)
  have hvpat : toU32 v = v.toNat := by unfold toU32; omega
  have hvt : v.toNat < 2 ^ j := by
    have h5 : (v.toNat : Int) = v := Int.toNat_of_nonneg hv0
    have h6 : (v.toNat : Int) < ((2 ^ j : Nat) : Int) := by rw [h5, hcast]; exact hvj
    exact_mod_cast h6
  have hPlt : hi * 2 ^ j < 2 ^ 32 := by rw [← hP]; omega
  have horb := orBits_hi_lo 32 j hi v.toNat hj hvt hPlt
  unfold cOr
  rw [hBpat, hvpat, horb]
  have hge : 2 ^ 31 ≤ hi * 2 ^ j := by omega
  have hlt : hi * 2 ^ j + v.toNat < 2 ^ 32 := by
    have e : 32 - j + j = 32 := by omega
    have h3 : 2 ^ (32 - j) * 2 ^ j = 2 ^ 32 := by rw [← pow_add, e]
    have h1 : hi + 1 ≤ 2 ^ (32 - j) := by
      by_contra hcon
      push_neg at hcon
      have h4 : 2 ^ (32 - j) * 2 ^ j ≤ hi * 2 ^ j := Nat.mul_le_mul_right _ (by omega)
      omega
    have h2 : (hi + 1) * 2 ^ j ≤ 2 ^ (32 - j) * 2 ^ j := Nat.mul_le_mul_right _ h1
    have h5 : (hi + 1) * 2 ^ j = hi * 2 ^ j + 2 ^ j := by ring
    rw [h5] at h2
    omega
  unfold ofU32
  split
  · omega
  · omega

/-! ## Concrete values of constant subexpressions -/

theorem lsb_SK : lsb SP_SK = 65536 := by decide

theorem lsb_ASC : lsb SP_ASC = 256 := by decide

theorem lsb_ASCQ : lsb SP_ASCQ = 1 := by decide

theorem cOr_THRU_SENSE : cOr SP_THRU SP_SENSE = -(2 ^ 31) + 2 ^ 20 := by decide

theorem cOr_THRU_SENSE_DEFERRED :
    cOr (cOr SP_THRU SP_SENSE) SP_DEFERRED = -(2 ^ 31) + 2 ^ 20 + 2 ^ 21 := by decide

/-- Fold the inlined clamp computation back into `senseLen`. -/
theorem senseLen_fold (chars : List Nat) (length : Int) :
    (if 7 < length then
       (if natAnd (chars.getD 7 0) 0xFF ≠ 0 then
          (if 7 + 1 + ((natAnd (chars.getD 7 0) 0xFF : Nat) : Int) < length
           then 7 + 1 + ((natAnd (chars.getD 7 0) 0xFF : Nat) : Int) else length)
        else length)
     else length) = senseLen chars length := rfl

/-! ## Disjoint joins of the sense fields -/

theorem cOr_step20 (B skv : Int)
    (hB : B = -(2 ^ 31) + 2 ^ 20 ∨ B = -(2 ^ 31) + 2 ^ 20 + 2 ^ 21)
    (h0 : 0 ≤ skv) (h1 : skv < 16) : cOr B (skv * 65536) = B + skv * 65536 := by
  rcases hB with h | h <;> subst h
  · exact cOr_add _ _ 20 (by norm_num) (by norm_num) (by norm_num) (by omega) (by omega)
      ⟨2049, by decide⟩
  · exact cOr_add _ _ 20 (by norm_num) (by norm_num) (by norm_num) (by omega) (by omega)
      ⟨2051, by decide⟩

theorem cOr_step16 (B skv av : Int)
    (hB : B = -(2 ^ 31) + 2 ^ 20 ∨ B = -(2 ^ 31) + 2 ^ 20 + 2 ^ 21)
    (hs0 : 0 ≤ skv) (hs1 : skv < 16) (h0 : 0 ≤ av) (h1 : av < 256) :
    cOr (B + skv * 65536) (av * 256) = B + skv * 65536 + av * 256 := by
  rcases hB with h | h <;> subst h
  · exact cOr_add _ _ 16 (by norm_num) (by omega) (by omega) (by omega) (by omega)
      ⟨32784 + skv.toNat, by omega⟩
  · exact cOr_add _ _ 16 (by norm_num) (by omega) (by omega) (by omega) (by omega)
      ⟨32816 + skv.toNat, by omega⟩

theorem cOr_step8 (B qv : Int) (hB0 : -(2 ^ 31) ≤ B) (hB1 : B < 0)
    (h0 : 0 ≤ qv) (h1 : qv < 256)
    (hex : ∃ hi : Nat, (B + 2 ^ 32).toNat = hi * 256) : cOr B qv = B + qv :=
  cOr_add B qv 8 (by norm_num) hB0 hB1 h0 (by omega) hex

/-- In the intelligible case the exit int built by `int_from_sense` is the
plain sum of its disjoint contributions: the failure pattern, the
sense-decoded bit, the deferred bit when the response code is not `0x70`,
and the Sense Key / ASC / ASCQ fields at their shifts. -/
theorem int_from_sense_shape (chars : List Nat) (length : Int)
    (h2 : 2 < length)
    (hrc : natAnd (chars.getD 0 0) 0x7F = 0x70 ∨ natAnd (chars.getD 0 0) 0x7F = 0x71) :
    int_from_sense chars length =
      -(2 ^ 31) + 2 ^ 20
        + (if natAnd (chars.getD 0 0) 0x7F = 0x70 then 0 else 2 ^ 21)
        + (natAnd (chars.getD 2 0) 0x0F : Int) * 2 ^ 16
        + (if 0xC < senseLen chars length then (natAnd (chars.getD 0xC 0) 0xFF : Int) else 0)
            * 2 ^ 8
        + (if 0xD < senseLen chars length then (natAnd (chars.getD 0xD 0) 0xFF : Int) else 0)
    := by
  have hsk : natAnd (chars.getD 2 0) 0x0F < 16 := by rw [natAnd_15]; omega
  have ha : natAnd (chars.getD 0xC 0) 0xFF < 256 := by rw [natAnd_255]; omega
  have hq : natAnd (chars.getD 0xD 0) 0xFF < 256 := by rw [natAnd_255]; omega
  simp only [int_from_sense, lsb_SK, lsb_ASC, lsb_ASCQ, mul_one]
  rw [if_pos h2, if_pos hrc, senseLen_fold]
  rcases hrc with h70 | h71
  · rw [if_neg (by simp only [h70]; decide : ¬natAnd (chars.getD 0 0) 0x7F ≠ 0x70), if_pos h70,
      cOr_THRU_SENSE]
    rw [cOr_step20 _ _ (Or.inl rfl) (by omega) (by omega)]
    by_cases hc1 : (0xC : Int) < senseLen chars length
    · rw [if_pos hc1, if_pos hc1]
      rw [cOr_step16 _ _ _ (Or.inl rfl) (by omega) (by omega) (by omega) (by omega)]
      by_cases hc2 : (0xD : Int) < senseLen chars length
      · rw [if_pos hc2, if_pos hc2]
        rw [cOr_step8 _ _ (by omega) (by omega) (by omega) (by omega)
          ⟨8392704 + (natAnd (chars.getD 2 0) 0x0F) * 256 + natAnd (chars.getD 0xC 0) 0xFF,
           by omega⟩]
        omega
      · rw [if_neg hc2, if_neg hc2]
        omega
    · rw [if_neg hc1, if_neg hc1]
      by_cases hc2 : (0xD : Int) < senseLen chars length
      · rw [if_pos hc2, if_pos hc2]
        rw [cOr_step8 _ _ (by omega) (by omega) (by omega) (by omega)
          ⟨8392704 + (natAnd (chars.getD 2 0) 0x0F) * 256, by omega⟩]
        omega
      · rw [if_neg hc2, if_neg hc2]
        omega
  · rw [if_pos (by simp only [h71]; decide : natAnd (chars.getD 0 0) 0x7F ≠ 0x70),
      if_neg (by simp only [h71]; decide : ¬natAnd (chars.getD 0 0) 0x7F = 0x70), cOr_THRU_SENSE_DEFERRED]
    rw [cOr_step20 _ _ (Or.inr rfl) (by omega) (by omega)]
    by_cases hc1 : (0xC : Int) < senseLen chars length
    · rw [if_pos hc1, if_pos hc1]
      rw [cOr_step16 _ _ _ (Or.inr rfl) (by omega) (by omega) (by omega) (by omega)]
      by_cases hc2 : (0xD : Int) < senseLen chars length
      · rw [if_pos hc2, if_pos hc2]
        rw [cOr_step8 _ _ (by omega) (by omega) (by omega) (by omega)
          ⟨8400896 + (natAnd (chars.getD 2 0) 0x0F) * 256 + natAnd (chars.getD 0xC 0) 0xFF,
           by omega⟩]
        omega
      · rw [if_neg hc2, if_neg hc2]
        omega
    · rw [if_neg hc1, if_neg hc1]
      by_cases hc2 : (0xD : Int) < senseLen chars length
      · rw [if_pos hc2, if_pos hc2]
        rw [cOr_step8 _ _ (by omega) (by omega) (by omega) (by omega)
          ⟨8400896 + (natAnd (chars.getD 2 0) 0x0F) * 256, by omega⟩]
        omega
      · rw [if_neg hc2, if_neg hc2]
        omega

theorem cOr_THRU_THRU : cOr SP_THRU SP_THRU = SP_THRU := by decide

/-- A non-negative value below `2 ^ 31` shares no bit with the failure
pattern. -/
theorem cAnd_THRU (r : Int) (h0 : 0 ≤ r) (h1 : r < 2 ^ 31) : cAnd r SP_THRU = 0 := by
  unfold cAnd SP_THRU
  have h2 : toU32 r = r.toNat := by unfold toU32; omega
  have h3 : toU32 (-(2 ^ 31)) = 1 * 2 ^ 31 := by decide
  rw [h2, h3, andBits_lo_hi 32 31 1 r.toNat (by omega)]
  decide

/-! ## The claims -/

/-- C1: when the ioctl returns non-negatively, the residue is within
`[0, requested length]` and the masked completion status is clean, both
`sp_read` and `sp_write` (via `sp_speak`) return exactly the residue —
zero on a full transfer, the positive shortfall otherwise — and that value
shares no bit with the failure pattern `SP_THRU`. -/
theorem claim1_clean_success (sp : Sp) (to_ from_ : Int) (max : Int) (o : SgOut)
    (hret : 0 ≤ o.ret) (h0 : 0 ≤ o.resid) (h1 : o.resid ≤ max) (h2 : o.resid < 2 ^ 31)
    (hok : natAnd o.info SG_INFO_OK_MASK = SG_INFO_OK) :
    (sp_read sp to_ max o).2 = o.resid ∧ (sp_write sp from_ max o).2 = o.resid ∧
      cAnd o.resid SP_THRU = 0 := by
  refine ⟨?_, ?_, cAnd_THRU o.resid h0 h2⟩ <;>
  · simp only [sp_read, sp_write, sp_data, sp_speak]
    rw [if_neg (show ¬o.ret < 0 by omega),
      if_neg (show ¬(o.resid < 0 ∨ max < o.resid) by push_neg; exact ⟨h0, h1⟩),
      if_neg (show ¬natAnd o.info SG_INFO_OK_MASK ≠ SG_INFO_OK by simpa using hok)]

/-- Closed instance of C1: a transfer of 20 bytes with residue 5 returns 5. -/
theorem claim1_witness :
    (sp_read demoSp 512 20 { ret := 0, resid := 5, sb_len_wr := 0, info := 0, sense := [] }).2
        = 5 ∧
      cAnd 5 SP_THRU = 0 := by
  have h := claim1_clean_success demoSp 512 768 20
    { ret := 0, resid := 5, sb_len_wr := 0, info := 0, sense := [] }
    (by decide) (by decide) (by decide) (by decide) (by decide)
  exact ⟨h.1, h.2.2⟩

/-- C2: if the ioctl call itself fails (negative return), the result is the
bare `SP_THRU` marker; the decoder yields the same bare marker for
unintelligible sense, and a transfer with unclean status, zero residue and
an unintelligible (zero-length) sense readout also returns the very same
value, so the two conditions are indistinguishable in the result. -/
theorem claim2_ioctl_failure (sp : Sp) (o : SgOut) (hret : o.ret < 0) :
    sp_speak sp o = SP_THRU ∧
      (∀ (chars : List Nat) (len : Int), len ≤ 2 → int_from_sense chars len = SP_THRU) ∧
      (∀ o2 : SgOut, 0 ≤ o2.ret → o2.resid = 0 → 0 ≤ sp.sih.dxfer_len →
        natAnd o2.info SG_INFO_OK_MASK ≠ SG_INFO_OK → o2.sb_len_wr = 0 →
        sp_speak sp o2 = SP_THRU) := by
  refine ⟨?_, ?_, ?_⟩
  · simp only [sp_speak]
    rw [if_pos hret]
  · intro chars len hlen
    simp only [int_from_sense]
    rw [if_neg (show ¬(2 : Int) < len by omega)]
  · intro o2 hret2 hres hmax hbad hsb
    simp only [sp_speak]
    rw [if_neg (show ¬o2.ret < 0 by omega),
      if_neg (show ¬(o2.resid < 0 ∨ sp.sih.dxfer_len < o2.resid) by omega),
      if_pos hbad,
      if_neg (show ¬(o2.sb_len_wr < 0 ∨ (sp.sih.mx_sb_len : Int) < o2.sb_len_wr) by omega),
      if_neg (show ¬o2.resid ≠ 0 by omega)]
    rw [show int_from_sense o2.sense o2.sb_len_wr = SP_THRU by
      simp only [int_from_sense]; rw [if_neg (show ¬(2 : Int) < o2.sb_len_wr by omega)]]
    exact cOr_THRU_THRU

/-- Closed instance of C2 at a concrete failing call. -/
theorem claim2_witness :
    sp_speak demoSp { ret := -1, resid := 0, sb_len_wr := 0, info := 0, sense := [] }
      = SP_THRU :=
  (claim2_ioctl_failure demoSp
    { ret := -1, resid := 0, sb_len_wr := 0, info := 0, sense := [] } (by decide)).1

/-- C3: a residue outside `[0, requested length]` yields
`SP_THRU | SP_DATA_THRU` (a fixed bit pattern, not a raw negative residue);
with the residue in range but the status unclean, a sense count outside
`[0, configured sense length]` yields `SP_THRU | SP_SENSE_THRU`. -/
theorem claim3_untrusted_accounting (sp : Sp) (o : SgOut) :
    (0 ≤ o.ret → (o.resid < 0 ∨ sp.sih.dxfer_len < o.resid) →
      sp_speak sp o = cOr SP_THRU SP_DATA_THRU ∧
        cOr SP_THRU SP_DATA_THRU = -(2 ^ 31) + 2 ^ 23) ∧
    (0 ≤ o.ret → 0 ≤ o.resid → o.resid ≤ sp.sih.dxfer_len →
      natAnd o.info SG_INFO_OK_MASK ≠ SG_INFO_OK →
      (o.sb_len_wr < 0 ∨ (sp.sih.mx_sb_len : Int) < o.sb_len_wr) →
      sp_speak sp o = cOr SP_THRU SP_SENSE_THRU ∧
        cOr SP_THRU SP_SENSE_THRU = -(2 ^ 31) + 2 ^ 24) := by
  constructor
  · intro hret hres
    refine ⟨?_, by decide⟩
    simp only [sp_speak]
    rw [if_neg (show ¬o.ret < 0 by omega), if_pos hres]
  · intro hret h0 h1 hbad hsb
    refine ⟨?_, by decide⟩
    simp only [sp_speak]
    rw [if_neg (show ¬o.ret < 0 by omega),
      if_neg (show ¬(o.resid < 0 ∨ sp.sih.dxfer_len < o.resid) by omega),
      if_pos hbad, if_pos hsb]

/-- Closed instance of C3: reported residue `-1` gives the data-accounting
marker, and an oversized sense count gives the sense-accounting marker. -/
theorem claim3_witness :
    sp_speak demoSp { ret := 0, resid := -1, sb_len_wr := 0, info := 0, sense := [] }
        = -(2 ^ 31) + 2 ^ 23 ∧
      sp_speak demoSp { ret := 0, resid := 0, sb_len_wr := 99, info := 1, sense := [] }
        = -(2 ^ 31) + 2 ^ 24 := by
  constructor
  · have h := (claim3_untrusted_accounting demoSp
      { ret := 0, resid := -1, sb_len_wr := 0, info := 0, sense := [] }).1
      (by decide) (by decide)
    rw [h.1, h.2]
  · have h := (claim3_untrusted_accounting demoSp
      { ret := 0, resid := 0, sb_len_wr := 99, info := 1, sense := [] }).2
      (by decide) (by decide) (by decide) (by decide) (by decide)
    rw [h.1, h.2]

/-- C4: residue in range, status unclean, sense count in range: the result
is `SP_THRU` joined with the decoded sense fragment, and additionally the
`SP_RESIDUE` flag exactly when the residue is nonzero. -/
theorem claim4_decoded_sense (sp : Sp) (o : SgOut)
    (hret : 0 ≤ o.ret) (h0 : 0 ≤ o.resid) (h1 : o.resid ≤ sp.sih.dxfer_len)
    (hbad : natAnd o.info SG_INFO_OK_MASK ≠ SG_INFO_OK)
    (hs0 : 0 ≤ o.sb_len_wr) (hs1 : o.sb_len_wr ≤ (sp.sih.mx_sb_len : Int)) :
    (o.resid = 0 → sp_speak sp o = cOr SP_THRU (int_from_sense o.sense o.sb_len_wr)) ∧
    (o.resid ≠ 0 →
      sp_speak sp o = cOr (cOr SP_THRU (int_from_sense o.sense o.sb_len_wr)) SP_RESIDUE) := by
  constructor
  · intro hz
    simp only [sp_speak]
    rw [if_neg (show ¬o.ret < 0 by omega),
      if_neg (show ¬(o.resid < 0 ∨ sp.sih.dxfer_len < o.resid) by omega),
      if_pos hbad,
      if_neg (show ¬(o.sb_len_wr < 0 ∨ (sp.sih.mx_sb_len : Int) < o.sb_len_wr) by omega),
      if_neg (show ¬o.resid ≠ 0 by omega)]
  · intro hnz
    simp only [sp_speak]
    rw [if_neg (show ¬o.ret < 0 by omega),
      if_neg (show ¬(o.resid < 0 ∨ sp.sih.dxfer_len < o.resid) by omega),
      if_pos hbad,
      if_neg (show ¬(o.sb_len_wr < 0 ∨ (sp.sih.mx_sb_len : Int) < o.sb_len_wr) by omega),
      if_pos hnz]

/-- Closed instance of C4 at a device-error outcome carrying the example
sense data and a nonzero residue. -/
theorem claim4_witness :
    sp_speak { demoSp with sih := { demoSp.sih with dxfer_len := 20, mx_sb_len := 18 } }
        { ret := 0, resid := 5, sb_len_wr := 14, info := 1, sense := demoSense }
      = cOr (cOr SP_THRU (int_from_sense demoSense 14)) SP_RESIDUE :=
  (claim4_decoded_sense _ _ (by decide) (by decide) (by decide) (by decide) (by decide)
    (by decide)).2 (by decide)

/-- C5: for an unintelligible buffer (valid length at most 2, or a response
code other than `0x70`/`0x71` in the low 7 bits of byte 0) the decoder
returns the bare failure marker with the sense-decoded, deferred, Sense
Key, ASC and ASCQ fields all zero; otherwise it sets the sense-decoded
bit, sets the deferred bit exactly when the response code is not `0x70`,
and puts the low 4 bits of byte 2 into the Sense Key field. -/
theorem claim5_sense_decoder (chars : List Nat) (length : Int) :
    ((length ≤ 2 ∨
        (natAnd (chars.getD 0 0) 0x7F ≠ 0x70 ∧ natAnd (chars.getD 0 0) 0x7F ≠ 0x71)) →
      int_from_sense chars length = SP_THRU ∧
      bitField (int_from_sense chars length) 20 1 = 0 ∧
      bitField (int_from_sense chars length) 21 1 = 0 ∧
      bitField (int_from_sense chars length) 16 4 = 0 ∧
      bitField (int_from_sense chars length) 8 8 = 0 ∧
      bitField (int_from_sense chars length) 0 8 = 0) ∧
    (2 < length →
      (natAnd (chars.getD 0 0) 0x7F = 0x70 ∨ natAnd (chars.getD 0 0) 0x7F = 0x71) →
      bitField (int_from_sense chars length) 20 1 = 1 ∧
      bitField (int_from_sense chars length) 21 1
        = (if natAnd (chars.getD 0 0) 0x7F = 0x70 then 0 else 1) ∧
      bitField (int_from_sense chars length) 16 4 = natAnd (chars.getD 2 0) 0x0F) := by
  constructor
  · intro h
    rcases le_or_lt length 2 with hle | hgt
    · have he : int_from_sense chars length = SP_THRU := by
        simp only [int_from_sense]
        rw [if_neg (show ¬(2 : Int) < length by omega)]
      rw [he]
      exact ⟨rfl, by decide, by decide, by decide, by decide, by decide⟩
    · have hbad : ¬(natAnd (chars.getD 0 0) 0x7F = 0x70 ∨
          natAnd (chars.getD 0 0) 0x7F = 0x71) := by
        rcases h with h | h
        · exact absurd hgt (by omega)
        · push_neg
          exact h
      have he : int_from_sense chars length = SP_THRU := by
        simp only [int_from_sense]
        rw [if_pos hgt, if_neg hbad]
      rw [he]
      exact ⟨rfl, by decide, by decide, by decide, by decide, by decide⟩
  · intro hl hrc
    have hsk : natAnd (chars.getD 2 0) 0x0F < 16 := by rw [natAnd_15]; omega
    have hac : natAnd (chars.getD 0xC 0) 0xFF < 256 := by rw [natAnd_255]; omega
    have hqc : natAnd (chars.getD 0xD 0) 0xFF < 256 := by rw [natAnd_255]; omega
    rw [int_from_sense_shape chars length hl hrc]
    generalize hA : (if (0xC : Int) < senseLen chars length
      then ((natAnd (chars.getD 0xC 0) 0xFF : Nat) : Int) else 0) = A
    generalize hQ : (if (0xD : Int) < senseLen chars length
      then ((natAnd (chars.getD 0xD 0) 0xFF : Nat) : Int) else 0) = Q
    have hA1 : 0 ≤ A ∧ A < 256 := by rw [← hA]; split <;> omega
    have hQ1 : 0 ≤ Q ∧ Q < 256 := by rw [← hQ]; split <;> omega
    refine ⟨?_, ?_, ?_⟩
    · generalize hD : (if natAnd (chars.getD 0 0) 0x7F = 0x70 then (0 : Int) else 2 ^ 21) = D
      have hD1 : D = 0 ∨ D = 2 ^ 21 := by
        rw [← hD]
        split
        · exact Or.inl rfl
        · exact Or.inr rfl
      unfold bitField toU32
      rcases hD1 with h | h <;> subst h <;> omega
    · by_cases h70 : natAnd (chars.getD 0 0) 0x7F = 0x70
      · rw [if_pos h70, if_pos h70]
        unfold bitField toU32
        omega
      · rw [if_neg h70, if_neg h70]
        unfold bitField toU32
        omega
    · generalize hD : (if natAnd (chars.getD 0 0) 0x7F = 0x70 then (0 : Int) else 2 ^ 21) = D
      have hD1 : D = 0 ∨ D = 2 ^ 21 := by
        rw [← hD]
        split
        · exact Or.inl rfl
        · exact Or.inr rfl
      unfold bitField toU32
      rcases hD1 with h | h <;> subst h <;> omega

/-- Closed instance of C5 at the example buffer (current sense, key 5). -/
theorem claim5_witness :
    bitField (int_from_sense demoSense 14) 20 1 = 1 ∧
      bitField (int_from_sense demoSense 14) 16 4 = natAnd (demoSense.getD 2 0) 0x0F := by
  have h := (claim5_sense_decoder demoSense 14).2 (by decide) (Or.inl (by decide))
  exact ⟨h.1, h.2.2⟩

/-- C6: for an intelligible buffer the effective valid length is
`min length (8 + additional length)` when byte 7 is read and nonzero, the
ASC byte (`0xC`) is extracted exactly when the effective length exceeds
`0xC`, the ASCQ byte (`0xD`) exactly when it exceeds `0xD`; and the
14-byte example decodes to sense set, not deferred, Sense Key 5,
ASC `0x21`, ASCQ `0x22`. -/
theorem claim6_additional_length (chars : List Nat) (length : Int)
    (h2 : 2 < length)
    (hrc : natAnd (chars.getD 0 0) 0x7F = 0x70 ∨ natAnd (chars.getD 0 0) 0x7F = 0x71) :
    (senseLen chars length =
      if 7 < length ∧ natAnd (chars.getD 7 0) 0xFF ≠ 0
      then min length (8 + (natAnd (chars.getD 7 0) 0xFF : Int)) else length) ∧
    bitField (int_from_sense chars length) 8 8
      = (if (0xC : Int) < senseLen chars length then natAnd (chars.getD 0xC 0) 0xFF else 0) ∧
    bitField (int_from_sense chars length) 0 8
      = (if (0xD : Int) < senseLen chars length then natAnd (chars.getD 0xD 0) 0xFF else 0) ∧
    (bitField (int_from_sense demoSense 14) 20 1 = 1 ∧
     bitField (int_from_sense demoSense 14) 21 1 = 0 ∧
     bitField (int_from_sense demoSense 14) 16 4 = 5 ∧
     bitField (int_from_sense demoSense 14) 8 8 = 0x21 ∧
     bitField (int_from_sense demoSense 14) 0 8 = 0x22) := by
  have hsk : natAnd (chars.getD 2 0) 0x0F < 16 := by rw [natAnd_15]; omega
  have hac : natAnd (chars.getD 0xC 0) 0xFF < 256 := by rw [natAnd_255]; omega
  have hqc : natAnd (chars.getD 0xD 0) 0xFF < 256 := by rw [natAnd_255]; omega
  refine ⟨?_, ?_, ?_, by decide, by decide, by decide, by decide, by decide⟩
  · simp only [senseLen]
    split_ifs <;> omega
  · rw [int_from_sense_shape chars length h2 hrc]
    generalize hD : (if natAnd (chars.getD 0 0) 0x7F = 0x70 then (0 : Int) else 2 ^ 21) = D
    have hD1 : D = 0 ∨ D = 2 ^ 21 := by
      rw [← hD]
      split
      · exact Or.inl rfl
      · exact Or.inr rfl
    generalize hQ : (if (0xD : Int) < senseLen chars length
      then ((natAnd (chars.getD 0xD 0) 0xFF : Nat) : Int) else 0) = Q
    have hQ1 : 0 ≤ Q ∧ Q < 256 := by rw [← hQ]; split <;> omega
    by_cases hc1 : (0xC : Int) < senseLen chars length
    · rw [if_pos hc1, if_pos hc1]
      unfold bitField toU32
      rcases hD1 with h | h <;> subst h <;> omega
    · rw [if_neg hc1, if_neg hc1]
      unfold bitField toU32
      rcases hD1 with h | h <;> subst h <;> omega
  · rw [int_from_sense_shape chars length h2 hrc]
    generalize hD : (if natAnd (chars.getD 0 0) 0x7F = 0x70 then (0 : Int) else 2 ^ 21) = D
    have hD1 : D = 0 ∨ D = 2 ^ 21 := by
      rw [← hD]
      split
      · exact Or.inl rfl
      · exact Or.inr rfl
    generalize hA : (if (0xC : Int) < senseLen chars length
      then ((natAnd (chars.getD 0xC 0) 0xFF : Nat) : Int) else 0) = A
    have hA1 : 0 ≤ A ∧ A < 256 := by rw [← hA]; split <;> omega
    by_cases hc2 : (0xD : Int) < senseLen chars length
    · rw [if_pos hc2, if_pos hc2]
      unfold bitField toU32
      rcases hD1 with h | h <;> subst h <;> omega
    · rw [if_neg hc2, if_neg hc2]
      unfold bitField toU32
      rcases hD1 with h | h <;> subst h <;> omega

/-- Closed instance of C6 at the example buffer: the additional-length
byte `0x0A` gives `min 14 (8 + 10) = 14`, so both ASC and ASCQ are read. -/
theorem claim6_witness :
    senseLen demoSense 14 = 14 ∧ bitField (int_from_sense demoSense 14) 8 8 = 0x21 := by
  have h := claim6_additional_length demoSense 14 (by decide) (Or.inl (by decide))
  refine ⟨?_, h.2.2.2.2.2.2.1⟩
  rw [h.1]
  decide

theorem wrap32_id (x : Int) (h0 : -(2 ^ 31) ≤ x) (h1 : x < 2 ^ 31) : wrap32 x = x := by
  unfold wrap32
  omega

/-- C `/` in terms of the floor division of `Int`. -/
theorem cdiv_rep (a b : Int) (hb : 0 ≤ b) :
    cdiv a b = if 0 ≤ a then a / b else -(-a / b) := by
  by_cases h : 0 ≤ a
  · rw [if_pos h]
    exact Int.tdiv_eq_ediv h hb
  · rw [if_neg h]
    have h1 : a.tdiv b = -((-a).tdiv b) := by rw [Int.neg_tdiv]; ring
    unfold cdiv
    rw [h1, Int.tdiv_eq_ediv (by omega) hb]

/-- C7 as stated is false on the code: `sp_late` accepts negative inputs
for which the stored timeout and the returned nanosecond remainder do not
match the claimed formulas.  `SetTimeout(-1, 0)` is accepted, stores the
unsigned wrap `4294966296` (not `(-1)*1000 + 0 = -1000`) and returns
`296000000` (not `(-1000 % 1000) * 10^6 = 0`); `SetTimeout(1, -10^6)` is
accepted and stores `1000`, not `1*1000 + (-1) = 999`. -/
theorem claim7_counterexample :
    (sp_late demoSp (-1) 0).map (fun p => ((p.1.sih.timeout : Int), p.2))
        = some (4294966296, 296000000) ∧
      ¬((4294966296 : Int) = (-1) * 1000 + 0) ∧
      ((-1) * 1000 + 0) % 1000 * 1000000 = 0 ∧ ¬((296000000 : Int) = 0) ∧
      (sp_late demoSp 1 (-1000000)).map (fun p => ((p.1.sih.timeout : Int), p.2))
        = some (1000, 0) ∧
      ¬((1000 : Int) = 1 * 1000 + (-1)) := by
  refine ⟨by decide, by decide, by decide, by decide, by decide, by decide⟩

/-- C7 amended: for non-negative seconds and a non-negative sub-second
nanosecond count, `sp_late` succeeds exactly when the rounded-up
millisecond total both stays below `2 ^ 31` and carries a sub-second part
below 1000; it then stores `s * 1000 + ⌈ns / 10^6⌉` milliseconds and
returns `(stored_ms % 1000) * 10^6`.  Every nanosecond count in
`[1, 999999]` rounds up to exactly one millisecond. -/
theorem claim7_amended (sp : Sp) (s ns : Int)
    (hs0 : 0 ≤ s) (hs1 : s < 2 ^ 31) (hn0 : 0 ≤ ns) (hn1 : ns < 1000000000) :
    (s * 1000 + (ns + 999999) / 1000000 < 2 ^ 31 ∧ (ns + 999999) / 1000000 ≤ 999 →
      sp_late sp s ns =
        some ({ sp with sih := { sp.sih with
                  timeout := (s * 1000 + (ns + 999999) / 1000000).toNat } },
              (s * 1000 + (ns + 999999) / 1000000) % 1000 * 1000000)) ∧
    (¬(s * 1000 + (ns + 999999) / 1000000 < 2 ^ 31 ∧ (ns + 999999) / 1000000 ≤ 999) →
      sp_late sp s ns = none) ∧
    (1 ≤ ns → ns ≤ 999999 → (ns + 999999) / 1000000 = 1) := by
  have hc0 : 0 ≤ (ns + 999999) / 1000000 := by omega
  have hc1 : (ns + 999999) / 1000000 ≤ 1000 := by omega
  have hchain : cdiv (cdiv (wrap32 (ns + 999999)) 1000) 1000 = (ns + 999999) / 1000000 := by
    rw [wrap32_id _ (by omega) (by omega), cdiv_rep (ns + 999999) 1000 (by norm_num),
      if_pos (show (0 : Int) ≤ ns + 999999 by omega),
      cdiv_rep ((ns + 999999) / 1000) 1000 (by norm_num),
      if_pos (show (0 : Int) ≤ (ns + 999999) / 1000 by omega)]
    omega
  refine ⟨?_, ?_, fun h1 h2 => by omega⟩
  · rintro ⟨hfit, hcs⟩
    have hw : wrap32 (s * 1000) = s * 1000 := wrap32_id _ (by omega) (by omega)
    have hms : wrap32 (wrap32 (s * 1000) + cdiv (cdiv (wrap32 (ns + 999999)) 1000) 1000)
        = s * 1000 + (ns + 999999) / 1000000 := by
      rw [hchain, hw, wrap32_id _ (by omega) (by omega)]
    have hguard : cdiv (s * 1000 + (ns + 999999) / 1000000) 1000 = s := by
      rw [cdiv_rep _ _ (by norm_num), if_pos (by omega)]
      omega
    simp only [sp_late]
    rw [hms, hguard, if_neg (show ¬s ≠ s by omega)]
    have e1 : ((s * 1000 + (ns + 999999) / 1000000) % 2 ^ 32).toNat
        = (s * 1000 + (ns + 999999) / 1000000).toNat := by omega
    rw [e1]
    simp only [Option.some.injEq, Prod.mk.injEq, Sp.mk.injEq, SgIoHdr.mk.injEq,
      and_true, true_and]
    have hA0 : 0 ≤ s * 1000 + (ns + 999999) / 1000000 := by omega
    clear hguard hms hchain hw hfit hcs e1 hc1
    generalize hA : s * 1000 + (ns + 999999) / 1000000 = A at hA0 ⊢
    omega
  · intro hfit
    have hguard : cdiv (wrap32 (wrap32 (s * 1000)
        + cdiv (cdiv (wrap32 (ns + 999999)) 1000) 1000)) 1000 ≠ s := by
      rw [hchain]
      intro hEq
      have hWdef : wrap32 (s * 1000) = (s * 1000 + 2 ^ 31) % 2 ^ 32 - 2 ^ 31 := rfl
      have hMdef : wrap32 (wrap32 (s * 1000) + (ns + 999999) / 1000000)
          = (wrap32 (s * 1000) + (ns + 999999) / 1000000 + 2 ^ 31) % 2 ^ 32 - 2 ^ 31 := rfl
      rw [cdiv_rep _ _ (by norm_num)] at hEq
      rcases le_or_lt 0 (wrap32 (wrap32 (s * 1000) + (ns + 999999) / 1000000))
        with hpos | hneg
      · rw [if_pos hpos] at hEq
        omega
      · rw [if_neg (by omega)] at hEq
        omega
    simp only [sp_late]
    rw [if_pos hguard]

/-- Closed instance of the amended C7: `SetTimeout(0, 1)` is accepted and
stores a timeout of exactly 1 millisecond. -/
theorem claim7_witness :
    sp_late demoSp 0 1 =
      some ({ demoSp with sih := { demoSp.sih with
                timeout := ((0 : Int) * 1000 + (1 + 999999) / 1000000).toNat } },
            ((0 : Int) * 1000 + (1 + 999999) / 1000000) % 1000 * 1000000) :=
  (claim7_amended demoSp 0 1 (by decide) (by decide) (by decide) (by decide)).1
    ⟨by decide, by decide⟩

/-- C8: for a length in `[0, 255]`, `sp_cdb` and `sp_sense` store exactly
that length in their 8-bit length field and return the stored pointer; for
any length outside `[0, 255]` both terminate the process (`none`). -/
theorem claim8_setters (sp : Sp) (cdb sense : Int) (max : Int) :
    ((0 ≤ max ∧ max ≤ 255) →
      sp_cdb sp cdb max
          = some ({ sp with sih := { sp.sih with cmd_len := max.toNat, cmdp := cdb } },
                  cdb) ∧
      sp_sense sp sense max
          = some ({ sp with sih := { sp.sih with mx_sb_len := max.toNat, sbp := sense } },
                  sense)) ∧
    (¬(0 ≤ max ∧ max ≤ 255) → sp_cdb sp cdb max = none ∧ sp_sense sp sense max = none) := by
  constructor
  · rintro ⟨hm0, hm1⟩
    have huch : (max % 256).toNat = max.toNat := by omega
    constructor
    · simp only [sp_cdb]
      rw [if_neg (show ¬((max % 256).toNat : Int) ≠ max by omega), huch]
    · simp only [sp_sense]
      rw [if_neg (show ¬((max % 256).toNat : Int) ≠ max by omega), huch]
  · intro hm
    constructor
    · simp only [sp_cdb]
      rw [if_pos (show ((max % 256).toNat : Int) ≠ max by omega)]
    · simp only [sp_sense]
      rw [if_pos (show ((max % 256).toNat : Int) ≠ max by omega)]

/-- Closed instance of C8: length 18 is stored verbatim, length 300 is
fatal. -/
theorem claim8_witness :
    sp_cdb demoSp 77 18 = some
        ({ demoSp with sih := { demoSp.sih with cmd_len := (18 : Int).toNat, cmdp := 77 } },
         77) ∧
      sp_cdb demoSp 77 300 = none ∧ sp_sense demoSp 77 (-1) = none := by
  refine ⟨((claim8_setters demoSp 77 77 18).1 ⟨by decide, by decide⟩).1, ?_, ?_⟩
  · exact ((claim8_setters demoSp 77 77 300).2 (by decide)).1
  · exact ((claim8_setters demoSp 77 77 (-1)).2 (by decide)).2

/-- C9: `sp_zero` is idempotent; it leaves the device handle unchanged and
produces the request record that is all zero except for the interface tag
(ASCII S), the null transfer direction, the default 18-byte sense view at
the in-object buffer, and the default 28-hour timeout in milliseconds. -/
theorem claim9_reset_idempotent (sp : Sp) :
    ∃ z : Sp,
      sp_zero sp = some z ∧ sp_zero z = some z ∧ z.fd = sp.fd ∧
      z.sih = zeroedSih sp.senseAddr ∧
      USUAL_SENSE = 18 ∧ (100800000 : Int) = USUAL_SECONDS * 1000 := by
  refine ⟨{ sp with sih := zeroedSih sp.senseAddr }, ?_, ?_, rfl, rfl, by decide, by decide⟩
  · rfl
  · rfl

/-- In-bounds list read, phrased with the valid length of the buffer. -/
theorem read_some (chars : List Nat) (length : Int) (hlen : chars.length = length.toNat)
    (i : Nat) (hi : (i : Int) < length) : chars[i]? = some (chars.getD i 0) := by
  have hl : i < chars.length := by omega
  rw [List.getElem?_eq_getElem hl, List.getD_eq_getElem?_getD,
    List.getElem?_eq_getElem hl]
  rfl

/-- C10: on a buffer holding exactly the valid length of bytes, the
decoder embedded with `Option`-valued reads never goes out of bounds and
agrees with the total embedding: every byte it touches lies strictly
below the valid length. -/
theorem claim10_reads_in_bounds (chars : List Nat) (length : Int)
    (hlen : chars.length = length.toNat) :
    int_from_senseO chars length = some (int_from_sense chars length) := by
  by_cases h2 : (2 : Int) < length
  · have r2 := read_some chars length hlen 2 (by omega)
    have r0 := read_some chars length hlen 0 (by omega)
    simp only [int_from_senseO, int_from_sense]
    rw [if_pos h2, if_pos h2, r2, r0, Option.some_bind, Option.some_bind]
    by_cases hrc : natAnd (chars.getD 0 0) 0x7F = 0x70 ∨ natAnd (chars.getD 0 0) 0x7F = 0x71
    · rw [if_pos hrc, if_pos hrc]
      by_cases h7 : (7 : Int) < length
      · rw [if_pos h7, if_pos h7, read_some chars length hlen 7 (by omega), Option.map_some',
          Option.some_bind]
        set L : Int := (if natAnd (chars.getD 7 0) 0xFF ≠ 0 then
          (if 7 + 1 + ((natAnd (chars.getD 7 0) 0xFF : Nat) : Int) < length
           then 7 + 1 + ((natAnd (chars.getD 7 0) 0xFF : Nat) : Int) else length)
          else length) with hL
        have hLle : L ≤ length := by
          rw [hL]
          split_ifs <;> omega
        by_cases hc1 : (0xC : Int) < L
        · rw [if_pos hc1, if_pos hc1, read_some chars length hlen 0xC (by omega),
            Option.map_some', Option.some_bind]
          by_cases hc2 : (0xD : Int) < L
          · rw [if_pos hc2, if_pos hc2, read_some chars length hlen 0xD (by omega),
              Option.map_some', Option.some_bind]
          · rw [if_neg hc2, if_neg hc2, Option.some_bind]
        · rw [if_neg hc1, if_neg hc1, Option.some_bind]
          by_cases hc2 : (0xD : Int) < L
          · rw [if_pos hc2, if_pos hc2, read_some chars length hlen 0xD (by omega),
              Option.map_some', Option.some_bind]
          · rw [if_neg hc2, if_neg hc2, Option.some_bind]
      · rw [if_neg h7, if_neg h7, Option.some_bind]
        by_cases hc1 : (0xC : Int) < length
        · rw [if_pos hc1, if_pos hc1, read_some chars length hlen 0xC (by omega),
            Option.map_some', Option.some_bind]
          by_cases hc2 : (0xD : Int) < length
          · rw [if_pos hc2, if_pos hc2, read_some chars length hlen 0xD (by omega),
              Option.map_some', Option.some_bind]
          · rw [if_neg hc2, if_neg hc2, Option.some_bind]
        · rw [if_neg hc1, if_neg hc1, Option.some_bind]
          by_cases hc2 : (0xD : Int) < length
          · rw [if_pos hc2, if_pos hc2, read_some chars length hlen 0xD (by omega),
              Option.map_some', Option.some_bind]
          · rw [if_neg hc2, if_neg hc2, Option.some_bind]
    · rw [if_neg hrc, if_neg hrc]
  · simp only [int_from_senseO, int_from_sense]
    rw [if_neg h2, if_neg h2]

/-- Closed instance of C10 at the 14-byte example buffer. -/
theorem claim10_witness :
    int_from_senseO demoSense 14 = some (int_from_sense demoSense 14) :=
  claim10_reads_in_bounds demoSense 14 (by decide)

end Lscsi
